import Mathlib

/-!
Verification of the celbridge RPC transport (celbridge_host package).

The Python sources embedded here:
* `celbridge_host/named_pipe.py` — `NamedPipeHandler.read_message`,
  `NamedPipeHandler.write_message`, `NamedPipeHandler._read_bytes`,
  `NamedPipeServer.close_pipe`;
* `celbridge_host/rpc_service.py` — `CelbridgeRpcService._run`,
  `CelbridgeRpcService._handle_client`, `CelbridgeRpcService.stop`,
  `initialize_rpc_service`, `get_pipe_handler`, `call_csharp_method`.

Bytes are modelled as `Nat` (values < 256 on the wire), byte streams as
`List Nat` holding the data the peer wrote before (possibly) closing the
pipe, and Python strings as `List Char`.
-/

namespace Celbridge

/-! ### UTF-8 codec

Models Python's `str.encode('utf-8')` and `bytes.decode('utf-8')` (strict
mode).  A Lean `Char` is a Unicode scalar value, exactly the values a
Python `str` holds (Python strings with lone surrogates cannot be encoded,
so they never appear on this code path). -/

/-- UTF-8 encoding of one Unicode scalar value, as byte values. -/
def utf8EncodeChar (v : Nat) : List Nat :=
  if v < 0x80 then [v]
  else if v < 0x800 then [0xC0 + v / 64, 0x80 + v % 64]
  else if v < 0x10000 then
    [0xE0 + v / 4096, 0x80 + v / 64 % 64, 0x80 + v % 64]
  else
    [0xF0 + v / 262144, 0x80 + v / 4096 % 64, 0x80 + v / 64 % 64, 0x80 + v % 64]

/-- `s.encode('utf-8')` for a Python string `s`. -/
def utf8Encode : List Char → List Nat
  | [] => []
  | c :: cs => utf8EncodeChar c.toNat ++ utf8Encode cs

/-- One step of strict UTF-8 decoding: the scalar value at the head of the
byte list and the remaining bytes, or `none` on malformed input
(Python's `UnicodeDecodeError`). -/
def utf8DecodeOne : List Nat → Option (Nat × List Nat)
  | [] => none
  | b0 :: rest =>
    if b0 < 0x80 then some (b0, rest)
    else if b0 < 0xC2 then none
    else if b0 < 0xE0 then
      match rest with
      | b1 :: rest1 =>
        if 0x80 ≤ b1 ∧ b1 < 0xC0 then some ((b0 - 0xC0) * 64 + (b1 - 0x80), rest1)
        else none
      | [] => none
    else if b0 < 0xF0 then
      match rest with
      | b1 :: b2 :: rest2 =>
        let v := (b0 - 0xE0) * 4096 + (b1 - 0x80) * 64 + (b2 - 0x80)
        if (0x80 ≤ b1 ∧ b1 < 0xC0) ∧ (0x80 ≤ b2 ∧ b2 < 0xC0) ∧
           0x800 ≤ v ∧ ¬(0xD800 ≤ v ∧ v < 0xE000) then
          some (v, rest2)
        else none
      | _ => none
    else if b0 < 0xF5 then
      match rest with
      | b1 :: b2 :: b3 :: rest3 =>
        let v := (b0 - 0xF0) * 262144 + (b1 - 0x80) * 4096 +
                 (b2 - 0x80) * 64 + (b3 - 0x80)
        if (0x80 ≤ b1 ∧ b1 < 0xC0) ∧ (0x80 ≤ b2 ∧ b2 < 0xC0) ∧
           (0x80 ≤ b3 ∧ b3 < 0xC0) ∧ 0x10000 ≤ v ∧ v < 0x110000 then
          some (v, rest3)
        else none
      | _ => none
    else none

/-- Fuelled strict UTF-8 decoding of a whole byte list.  Each step of
`utf8DecodeOne` consumes at least one byte, so fuel `l.length` suffices. -/
def utf8DecodeAux : Nat → List Nat → Option (List Char)
  | _, [] => some []
  | 0, _ :: _ => none
  | fuel + 1, l =>
    match utf8DecodeOne l with
    | none => none
    | some (v, rest) =>
      match utf8DecodeAux fuel rest with
      | none => none
      | some cs => some (Char.ofNat v :: cs)

/-- `b.decode('utf-8')` for a byte string `b`: the decoded Python string,
or `none` when Python would raise `UnicodeDecodeError`. -/
def utf8Decode (l : List Nat) : Option (List Char) :=
  utf8DecodeAux l.length l

/-- The scalar value of a Lean `Char`, as a `Nat`, is a valid Unicode
scalar value. -/
theorem char_toNat_valid (c : Char) :
    c.toNat < 0xD800 ∨ (0xDFFF < c.toNat ∧ c.toNat < 0x110000) := by
  rcases c.valid with h | ⟨h1, h2⟩
  · exact Or.inl (UInt32.toNat_lt_of_lt (by decide) h)
  · exact Or.inr ⟨UInt32.lt_toNat_of_lt (by decide) h1,
      UInt32.toNat_lt_of_lt (by decide) h2⟩

/-- Decoding inverts encoding at the level of one scalar value. -/
theorem utf8DecodeOne_encodeChar (v : Nat) (rest : List Nat)
    (hv : v < 0xD800 ∨ (0xDFFF < v ∧ v < 0x110000)) :
    utf8DecodeOne (utf8EncodeChar v ++ rest) = some (v, rest) := by
  by_cases h1 : v < 0x80
  · simp [utf8EncodeChar, utf8DecodeOne, h1]
  by_cases h2 : v < 0x800
  · have hb : utf8EncodeChar v = [0xC0 + v / 64, 0x80 + v % 64] := by
      simp [utf8EncodeChar, h1, h2]
    rw [hb]
    simp only [List.cons_append, List.nil_append, utf8DecodeOne]
    rw [if_neg (by omega), if_neg (by omega), if_pos (by omega),
      if_pos (by omega)]
    have hval : (0xC0 + v / 64 - 0xC0) * 64 + (0x80 + v % 64 - 0x80) = v := by
      omega
    rw [hval]
  by_cases h3 : v < 0x10000
  · have a1 : v / 64 / 64 = v / 4096 := by rw [Nat.div_div_eq_div_mul]
    have hb : utf8EncodeChar v =
        [0xE0 + v / 4096, 0x80 + v / 64 % 64, 0x80 + v % 64] := by
      simp [utf8EncodeChar, h1, h2, h3]
    rw [hb]
    simp only [List.cons_append, List.nil_append, utf8DecodeOne]
    have hval : (0xE0 + v / 4096 - 0xE0) * 4096 +
        (0x80 + v / 64 % 64 - 0x80) * 64 + (0x80 + v % 64 - 0x80) = v := by
      omega
    rw [if_neg (by omega), if_neg (by omega), if_neg (by omega),
      if_pos (by omega)]
    rw [if_pos]
    · rw [hval]
    · refine ⟨⟨by omega, by omega⟩, ⟨by omega, by omega⟩, ?_, ?_⟩
      · rw [hval]; omega
      · rw [hval]; omega
  · have a1 : v / 64 / 64 = v / 4096 := by rw [Nat.div_div_eq_div_mul]
    have a2 : v / 4096 / 64 = v / 262144 := by rw [Nat.div_div_eq_div_mul]
    have hv' : v < 0x110000 := by rcases hv with h | ⟨_, h⟩ <;> omega
    have hb : utf8EncodeChar v =
        [0xF0 + v / 262144, 0x80 + v / 4096 % 64,
         0x80 + v / 64 % 64, 0x80 + v % 64] := by
      simp [utf8EncodeChar, h1, h2, h3]
    rw [hb]
    simp only [List.cons_append, List.nil_append, utf8DecodeOne]
    have hval : (0xF0 + v / 262144 - 0xF0) * 262144 +
        (0x80 + v / 4096 % 64 - 0x80) * 4096 +
        (0x80 + v / 64 % 64 - 0x80) * 64 + (0x80 + v % 64 - 0x80) = v := by
      omega
    rw [if_neg (by omega), if_neg (by omega), if_neg (by omega),
      if_neg (by omega), if_pos (by omega)]
    rw [if_pos]
    · rw [hval]
    · refine ⟨⟨by omega, by omega⟩, ⟨by omega, by omega⟩, ⟨by omega, by omega⟩,
        ?_, ?_⟩
      · rw [hval]; omega
      · rw [hval]; omega

/-- Every scalar value encodes to at least one byte. -/
theorem utf8EncodeChar_ne_nil (v : Nat) : utf8EncodeChar v ≠ [] := by
  unfold utf8EncodeChar
  split_ifs <;> simp

/-- A string's UTF-8 encoding has at least as many bytes as characters. -/
theorem length_le_utf8Encode_length (s : List Char) :
    s.length ≤ (utf8Encode s).length := by
  induction s with
  | nil => simp [utf8Encode]
  | cons c cs ih =>
    have h := utf8EncodeChar_ne_nil c.toNat
    have : 1 ≤ (utf8EncodeChar c.toNat).length := by
      cases hh : utf8EncodeChar c.toNat with
      | nil => exact absurd hh h
      | cons _ _ => simp
    simp only [utf8Encode, List.length_cons, List.length_append]
    omega

/-- Decoding inverts encoding, given enough fuel. -/
theorem utf8DecodeAux_encode (s : List Char) :
    ∀ fuel, s.length ≤ fuel → utf8DecodeAux fuel (utf8Encode s) = some s := by
  induction s with
  | nil => intro fuel _; cases fuel <;> simp [utf8Encode, utf8DecodeAux]
  | cons c cs ih =>
    intro fuel hfuel
    have hne : utf8EncodeChar c.toNat ++ utf8Encode cs ≠ [] := by
      intro h
      exact utf8EncodeChar_ne_nil c.toNat (List.append_eq_nil.mp h).1
    cases fuel with
    | zero => simp at hfuel
    | succ fuel =>
      have hdec := utf8DecodeOne_encodeChar c.toNat (utf8Encode cs)
        (char_toNat_valid c)
      cases he : utf8EncodeChar c.toNat ++ utf8Encode cs with
      | nil => exact absurd he hne
      | cons b bs =>
        simp only [utf8Encode, he, utf8DecodeAux]
        rw [← he, hdec]
        simp [ih fuel (by simpa using hfuel), Char.ofNat_toNat]

/-- Python round trip: `(s.encode('utf-8')).decode('utf-8') == s`. -/
theorem utf8Decode_utf8Encode (s : List Char) :
    utf8Decode (utf8Encode s) = some s :=
  utf8DecodeAux_encode s (utf8Encode s).length
    (length_le_utf8Encode_length s)

example : utf8Encode "ab".data = [97, 98] := by decide
example : utf8Encode "é".data = [0xC3, 0xA9] := by decide
example : utf8Decode [0xC3, 0xA9] = some "é".data := by decide
example : utf8Decode [0xFF] = none := by decide
example : utf8Encode "√".data = [0xE2, 0x88, 0x9A] := by decide
example : utf8Decode (utf8Encode "√x".data) = some "√x".data := by decide

/-! ### Message framing — `NamedPipeHandler` (named_pipe.py)

`NamedPipeHandler.read_message` reads single bytes until the byte string
accumulated so far contains `b"\r\n\r\n"`, UTF-8-decodes the headers,
scans the `\r\n`-split lines for the first one starting with
`Content-Length:`, parses `int(line.split(':', 1)[1].strip())`, then calls
`_read_bytes(content_length)` once and UTF-8-decodes the result.
`_read_bytes(count)` is one `win32file.ReadFile(handle, count)` call: it
does not loop, so it returns at most `count` of the buffered bytes, and
reports a closed/broken pipe as `None`.

The byte stream below is the data the peer wrote (in order) before the
pipe (possibly) closed; `ReadFile` is modelled as taking up to `count`
bytes from the front, end of stream meaning `ERROR_BROKEN_PIPE`. A
zero-byte `ReadFile` succeeds immediately with `b""` whether or not data
is buffered. -/

/-- `pat.isPrefixOf l` for byte/char lists (models `str.startswith` and
is the building block for the `in` check on bytes). -/
def startsWithL {α : Type} [DecidableEq α] : List α → List α → Bool
  | [], _ => true
  | _ :: _, [] => false
  | p :: ps, c :: cs => if p = c then startsWithL ps cs else false

/-- `pat in l` for byte strings (Python `bytes.__contains__`). -/
def containsSeq {α : Type} [DecidableEq α] (pat : List α) : List α → Bool
  | [] => startsWithL pat []
  | c :: cs => startsWithL pat (c :: cs) || containsSeq pat cs

/-- The header-accumulation loop of `read_message`: starting from the
bytes `acc` already read, keep reading one byte at a time until `acc`
contains `b"\r\n\r\n"`; `none` models the `return None` taken when the
pipe reports closed (`if not chunk`) during the loop. -/
def readHeaderLoop : List Nat → List Nat → Option (List Nat × List Nat)
  | acc, [] =>
    if containsSeq [13, 10, 13, 10] acc then some (acc, []) else none
  | acc, b :: rest =>
    if containsSeq [13, 10, 13, 10] acc then some (acc, b :: rest)
    else readHeaderLoop (acc ++ [b]) rest

/-- `_read_bytes(count)` against the buffered stream: `none` models the
`None` return on a closed pipe (`ERROR_BROKEN_PIPE` or a nonzero
`ReadFile` result); otherwise up to `count` buffered bytes are returned.

`ReadFile` with `count = 0` succeeds at once with `b""`. -/
def readBytesRaw (count : Nat) (stream : List Nat) :
    Option (List Nat) × List Nat :=
  if count = 0 then (some [], stream)
  else if stream.isEmpty then (none, stream)
  else (some (stream.take count), stream.drop count)

/-- `headers_str.split('\r\n')` (Python `str.split` with a two-character
separator, splitting at each non-overlapping occurrence left to right). -/
def splitCRLF : List Char → List (List Char)
  | [] => [[]]
  | [c] => [[c]]
  | c1 :: c2 :: rest =>
    if c1 = '\r' ∧ c2 = '\n' then [] :: splitCRLF rest
    else
      match splitCRLF (c2 :: rest) with
      | [] => [[c1]]
      | l :: ls => (c1 :: l) :: ls

/-- `line.split(':', 1)[1]` for a line known to contain a colon:
everything after the first `':'`. -/
def afterFirstColon : List Char → List Char
  | [] => []
  | c :: rest => if c = ':' then rest else afterFirstColon rest

/-- The ASCII whitespace characters removed by `str.strip()` (the header
line is ASCII here, so the exotic Unicode space classes are immaterial). -/
def isPySpace (c : Char) : Bool :=
  c = ' ' || c = '\t' || c = '\n' || c = '\r' || c = '\x0b' || c = '\x0c'

/-- `s.strip()`. -/
def pyStrip (l : List Char) : List Char :=
  ((l.dropWhile isPySpace).reverse.dropWhile isPySpace).reverse

/-- Digit run of Python's `int(str)` grammar: `digit (["_"] digit)*`,
accumulating the value. -/
def parseDigitsCore (acc : Nat) : List Char → Option Nat
  | [] => some acc
  | c :: cs =>
    if c.isDigit then parseDigitsCore (acc * 10 + (c.toNat - 48)) cs
    else if c = '_' then
      match cs with
      | d :: cs1 =>
        if d.isDigit then parseDigitsCore (acc * 10 + (d.toNat - 48)) cs1
        else none
      | [] => none
    else none

/-- Nonempty digit run. -/
def parsePyNat : List Char → Option Nat
  | [] => none
  | c :: cs => if c.isDigit then parseDigitsCore (c.toNat - 48) cs else none

/-- `int(s)` on an already-stripped string: optional sign, then digits;
`none` models the `ValueError` Python raises otherwise. -/
def parsePyInt : List Char → Option Int
  | [] => none
  | c :: rest =>
    if c = '+' then (parsePyNat rest).map Int.ofNat
    else if c = '-' then (parsePyNat rest).map fun n => -(Int.ofNat n : Int)
    else (parsePyNat (c :: rest)).map Int.ofNat

/-- Outcome of the `Content-Length` scan in `read_message`. -/
inductive CLRes where
  | missing
  | exn
  | val (v : Int)
  deriving DecidableEq

/-- `int(line.split(':', 1)[1].strip())` for the first matching line;
`exn` models the `ValueError` escaping to the outer handler. -/
def parseCLValue (line : List Char) : CLRes :=
  match parsePyInt (pyStrip (afterFirstColon line)) with
  | none => CLRes.exn
  | some v => CLRes.val v

/-- The `for line in headers_str.split('\r\n')` loop: the first line
starting with `Content-Length:` decides the result (the loop `break`s);
no such line leaves `content_length is None`. -/
def parseContentLength : List (List Char) → CLRes
  | [] => CLRes.missing
  | l :: ls =>
    if startsWithL "Content-Length:".data l then parseCLValue l
    else parseContentLength ls

/-- Exceptions that the body of `read_message` can raise into its
`except Exception` handler: `UnicodeDecodeError` from `.decode('utf-8')`,
`ValueError` from `int(...)`, and the error `win32file.ReadFile` raises
for a negative count. -/
inductive PyExn where
  | unicodeDecode
  | valueError
  | osError
  deriving DecidableEq

/-- The body of `read_message` (everything inside the `try`).  `.ok`
carries the returned value, whether one of the two in-body
`logger.error` calls fired, and the unconsumed stream; `.error` carries
the exception reaching the outer handler and the unconsumed stream. -/
def readMessageBody (stream : List Nat) :
    Except (PyExn × List Nat) (Option (List Char) × Bool × List Nat) :=
  match readHeaderLoop [] stream with
  | none => .ok (none, false, [])
  | some (headers, rest) =>
    match utf8Decode headers with
    | none => .error (.unicodeDecode, rest)
    | some headersStr =>
      match parseContentLength (splitCRLF headersStr) with
      | .exn => .error (.valueError, rest)
      | .missing => .ok (none, true, rest)
      | .val cl =>
        if cl < 0 then .error (.osError, rest)
        else
          match readBytesRaw cl.toNat rest with
          | (none, rest1) => .ok (none, true, rest1)
          | (some mb, rest1) =>
            if mb.isEmpty || mb.length ≠ cl.toNat then .ok (none, true, rest1)
            else
              match utf8Decode mb with
              | none => .error (.unicodeDecode, rest1)
              | some s => .ok (some s, false, rest1)

/-- What a caller of `read_message` can observe: the returned
`Optional[str]`, whether any `logger.error` line was emitted, and the
stream position afterwards. -/
structure ReadResult where
  value : Option (List Char)
  errorLogged : Bool
  rest : List Nat
  deriving DecidableEq

/-- `NamedPipeHandler.read_message`: the body wrapped in
`try/except Exception`, whose handler logs an error and returns `None`. -/
def readMessage (stream : List Nat) : ReadResult :=
  match readMessageBody stream with
  | .ok (v, logged, rest) => ⟨v, logged, rest⟩
  | .error (_, rest) => ⟨none, true, rest⟩

/-- Decimal digits of `n` (the `f"{content_length}"` interpolation). -/
def decimalCharsAux : Nat → Nat → List Char
  | 0, _ => []
  | fuel + 1, n =>
    if n < 10 then [Char.ofNat (48 + n)]
    else decimalCharsAux fuel (n / 10) ++ [Char.ofNat (48 + n % 10)]

/-- Decimal representation of `n` as characters. -/
def decimalChars (n : Nat) : List Char :=
  decimalCharsAux (n + 1) n

/-- The header string `f"Content-Length: {n}\r\n\r\n"`. -/
def headerChars (n : Nat) : List Char :=
  "Content-Length: ".data ++ decimalChars n ++ ['\r', '\n', '\r', '\n']

/-- The bytes `write_message` hands to `win32file.WriteFile`:
`f"Content-Length: {len(utf8(msg))}\r\n\r\n".encode('utf-8')` followed by
`msg.encode('utf-8')`, as a single write. -/
def writeMessageBytes (message : List Char) : List Nat :=
  utf8Encode (headerChars (utf8Encode message).length) ++ utf8Encode message

/-- `NamedPipeHandler.write_message`: `osOk` is whether the single
`WriteFile` call succeeds; an OS failure raises into the
`except Exception` handler, which returns `False`.  Result: the boolean
returned to the caller, and the bytes that went out on the wire. -/
def writeMessageFull (osOk : Bool) (message : List Char) :
    Bool × List Nat :=
  if osOk then (true, writeMessageBytes message) else (false, [])

example : writeMessageBytes "ab".data =
    (("Content-Length: 2".data.map Char.toNat) ++ [13, 10, 13, 10] ++ [97, 98]) := by
  decide

example : readMessage (writeMessageBytes "ab".data) =
    ⟨some "ab".data, false, []⟩ := by decide

example : readMessage (writeMessageBytes "a\r\n\r\nb".data) =
    ⟨some "a\r\n\r\nb".data, false, []⟩ := by decide

example : readMessage (writeMessageBytes []) = ⟨none, true, []⟩ := by decide

example : readMessage [] = ⟨none, false, []⟩ := by decide

example : readMessage (utf8Encode "Foo: 3\r\n\r\nabc".data) =
    ⟨none, true, utf8Encode "abc".data⟩ := by decide

/-! ### Supporting lemmas for the round-trip -/

theorem toNat_ofNat_valid (m : Nat) (h : m.isValidChar) :
    (Char.ofNat m).toNat = m := by
  rw [Char.ofNat, dif_pos h]
  rfl

theorem toNat_ofNat_small (m : Nat) (h : m < 0xD800) :
    (Char.ofNat m).toNat = m :=
  toNat_ofNat_valid m (Or.inl h)

/-- Every character produced by `decimalCharsAux` is a decimal digit. -/
theorem decimalCharsAux_digits (fuel : Nat) :
    ∀ n c, c ∈ decimalCharsAux fuel n → 48 ≤ c.toNat ∧ c.toNat ≤ 57 := by
  induction fuel with
  | zero => intro n c hc; simp [decimalCharsAux] at hc
  | succ fuel ih =>
    intro n c hc
    rw [decimalCharsAux] at hc
    by_cases hn : n < 10
    · rw [if_pos hn] at hc
      simp at hc
      subst hc
      rw [toNat_ofNat_small (48 + n) (by omega)]
      omega
    · rw [if_neg hn] at hc
      rcases List.mem_append.mp hc with h | h
      · exact ih _ c h
      · simp at h
        subst h
        rw [toNat_ofNat_small (48 + n % 10) (by omega)]
        omega

theorem decimalChars_digits (n : Nat) :
    ∀ c ∈ decimalChars n, 48 ≤ c.toNat ∧ c.toNat ≤ 57 := fun c hc =>
  decimalCharsAux_digits (n + 1) n c hc

theorem decimalCharsAux_ne_nil (fuel n : Nat) (h : n < fuel) :
    decimalCharsAux fuel n ≠ [] := by
  cases fuel with
  | zero => omega
  | succ fuel =>
    rw [decimalCharsAux]
    split_ifs <;> simp

theorem decimalChars_ne_nil (n : Nat) : decimalChars n ≠ [] :=
  decimalCharsAux_ne_nil (n + 1) n (by omega)

/-- A successful `startsWithL` bounds element counts. -/
theorem startsWithL_count :
    ∀ (pat l : List Nat), startsWithL pat l = true →
      ∀ x, pat.count x ≤ l.count x := by
  intro pat
  induction pat with
  | nil => intro l _ x; simp
  | cons p ps ih =>
    intro l h x
    cases l with
    | nil => simp [startsWithL] at h
    | cons c cs =>
      rw [startsWithL] at h
      by_cases hpc : p = c
      · rw [if_pos hpc] at h
        subst hpc
        have hc := ih cs h x
        simp only [List.count_cons]
        split_ifs <;> omega
      · rw [if_neg hpc] at h
        exact absurd h (by simp)

/-- A contained pattern bounds element counts. -/
theorem containsSeq_count :
    ∀ (l pat : List Nat), containsSeq pat l = true →
      ∀ x, pat.count x ≤ l.count x := by
  intro l
  induction l with
  | nil => intro pat h x; exact startsWithL_count pat [] (by simpa [containsSeq] using h) x
  | cons c cs ih =>
    intro pat h x
    rw [containsSeq] at h
    rcases Bool.or_eq_true_iff.mp h with h | h
    · exact startsWithL_count pat (c :: cs) h x
    · have := ih pat h x
      simp only [List.count_cons]
      split_ifs <;> omega

/-- Too few carriage returns or line feeds rule out the terminator. -/
theorem containsSeq_term_false (l : List Nat)
    (h : l.count 13 < 2 ∨ l.count 10 < 2) :
    containsSeq [13, 10, 13, 10] l = false := by
  by_contra hc
  have hc' : containsSeq [13, 10, 13, 10] l = true := by
    cases h' : containsSeq [13, 10, 13, 10] l
    · exact absurd h' hc
    · rfl
  have h13 := containsSeq_count l [13, 10, 13, 10] hc' 13
  have h10 := containsSeq_count l [13, 10, 13, 10] hc' 10
  have e13 : List.count 13 [13, 10, 13, 10] = 2 := by decide
  have e10 : List.count 10 [13, 10, 13, 10] = 2 := by decide
  rw [e13] at h13
  rw [e10] at h10
  omega

theorem startsWithL_self {α : Type} [DecidableEq α] :
    ∀ (l : List α), startsWithL l l = true := by
  intro l
  induction l with
  | nil => rfl
  | cons c cs ih => simp [startsWithL, ih]

/-- The terminator is found once it is a suffix of the accumulator. -/
theorem containsSeq_suffix_term (xs : List Nat) :
    containsSeq [13, 10, 13, 10] (xs ++ [13, 10, 13, 10]) = true := by
  induction xs with
  | nil => decide
  | cons c cs ih => simp [containsSeq, ih]

theorem readHeaderLoop_found (acc input : List Nat)
    (h : containsSeq [13, 10, 13, 10] acc = true) :
    readHeaderLoop acc input = some (acc, input) := by
  cases input <;> simp [readHeaderLoop, h]

theorem readHeaderLoop_step (acc : List Nat) (b : Nat) (input : List Nat)
    (h : containsSeq [13, 10, 13, 10] acc = false) :
    readHeaderLoop acc (b :: input) = readHeaderLoop (acc ++ [b]) input := by
  simp [readHeaderLoop, h]

theorem count_eq_zero_of_ne (l : List Nat) (x : Nat)
    (h : ∀ b ∈ l, b ≠ x) : l.count x = 0 :=
  List.count_eq_zero.mpr fun hx => (h x hx) rfl

/-- Header accumulation: bytes free of CR and LF followed by the
terminator are consumed exactly up to (and including) the terminator. -/
theorem readHeaderLoop_clean :
    ∀ (xs acc rest : List Nat),
      (∀ b ∈ acc, b ≠ 13 ∧ b ≠ 10) → (∀ b ∈ xs, b ≠ 13 ∧ b ≠ 10) →
      readHeaderLoop acc (xs ++ [13, 10, 13, 10] ++ rest) =
        some (acc ++ xs ++ [13, 10, 13, 10], rest) := by
  intro xs
  induction xs with
  | nil =>
    intro acc rest hacc _
    have c13 : acc.count 13 = 0 :=
      count_eq_zero_of_ne acc 13 fun b hb => (hacc b hb).1
    have c10 : acc.count 10 = 0 :=
      count_eq_zero_of_ne acc 10 fun b hb => (hacc b hb).2
    have h0 : containsSeq [13, 10, 13, 10] acc = false :=
      containsSeq_term_false acc (Or.inl (by omega))
    have h1 : containsSeq [13, 10, 13, 10] (acc ++ [13]) = false :=
      containsSeq_term_false _ (Or.inr (by simp [List.count_append]; omega))
    have h2 : containsSeq [13, 10, 13, 10] (acc ++ [13] ++ [10]) = false :=
      containsSeq_term_false _ (Or.inl (by simp [List.count_append]; omega))
    have h3 : containsSeq [13, 10, 13, 10] (acc ++ [13] ++ [10] ++ [13]) = false :=
      containsSeq_term_false _ (Or.inr (by simp [List.count_append]; omega))
    have h4 : containsSeq [13, 10, 13, 10]
        (acc ++ [13] ++ [10] ++ [13] ++ [10]) = true := by
      have : acc ++ [13] ++ [10] ++ [13] ++ [10] = acc ++ [13, 10, 13, 10] := by
        simp
      rw [this]
      exact containsSeq_suffix_term acc
    show readHeaderLoop acc (13 :: 10 :: 13 :: 10 :: rest) = _
    rw [readHeaderLoop_step _ _ _ h0, readHeaderLoop_step _ _ _ h1,
      readHeaderLoop_step _ _ _ h2, readHeaderLoop_step _ _ _ h3,
      readHeaderLoop_found _ _ h4]
    simp
  | cons x xs ih =>
    intro acc rest hacc hxs
    have hx := hxs x (by simp)
    have c13 : acc.count 13 = 0 :=
      count_eq_zero_of_ne acc 13 fun b hb => (hacc b hb).1
    have h0 : containsSeq [13, 10, 13, 10] acc = false :=
      containsSeq_term_false acc (Or.inl (by omega))
    show readHeaderLoop acc (x :: (xs ++ [13, 10, 13, 10] ++ rest)) = _
    rw [readHeaderLoop_step _ _ _ h0]
    rw [ih (acc ++ [x]) rest ?_ fun b hb => hxs b (by simp [hb])]
    · simp
    · intro b hb
      rcases List.mem_append.mp hb with h | h
      · exact hacc b h
      · simp at h
        subst h
        exact hx

theorem utf8Encode_append (a b : List Char) :
    utf8Encode (a ++ b) = utf8Encode a ++ utf8Encode b := by
  induction a with
  | nil => simp [utf8Encode]
  | cons c cs ih => simp [utf8Encode, ih]

theorem utf8Encode_ne_nil (s : List Char) (h : s ≠ []) :
    utf8Encode s ≠ [] := by
  cases s with
  | nil => exact absurd rfl h
  | cons c cs =>
    simp only [utf8Encode]
    intro hx
    exact utf8EncodeChar_ne_nil c.toNat (List.append_eq_nil.mp hx).1

theorem utf8EncodeChar_no_crlf (v : Nat) (h13 : v ≠ 13) (h10 : v ≠ 10) :
    ∀ b ∈ utf8EncodeChar v, b ≠ 13 ∧ b ≠ 10 := by
  intro b hb
  unfold utf8EncodeChar at hb
  split_ifs at hb
  · simp at hb
    subst hb
    exact ⟨h13, h10⟩
  · simp at hb
    rcases hb with h | h <;> omega
  · simp at hb
    rcases hb with h | h | h <;> omega
  · simp at hb
    rcases hb with h | h | h | h <;> omega

theorem utf8Encode_no_crlf (l : List Char)
    (h : ∀ c ∈ l, c.toNat ≠ 13 ∧ c.toNat ≠ 10) :
    ∀ b ∈ utf8Encode l, b ≠ 13 ∧ b ≠ 10 := by
  induction l with
  | nil => simp [utf8Encode]
  | cons c cs ih =>
    intro b hb
    simp only [utf8Encode] at hb
    rcases List.mem_append.mp hb with h1 | h1
    · exact utf8EncodeChar_no_crlf c.toNat (h c (by simp)).1 (h c (by simp)).2 b h1
    · exact ih (fun x hx => h x (by simp [hx])) b h1

/-- `str.split('\r\n')` takes the text up to the first `\r\n` as the
first piece. -/
theorem splitCRLF_append (l rest : List Char) (h : ∀ c ∈ l, c ≠ '\r') :
    splitCRLF (l ++ '\r' :: '\n' :: rest) = l :: splitCRLF rest := by
  induction l with
  | nil => simp [splitCRLF]
  | cons c cs ih =>
    have hc := h c (by simp)
    have ih' := ih fun x hx => h x (by simp [hx])
    cases cs with
    | nil =>
      have ih0 : splitCRLF ('\r' :: '\n' :: rest) = [] :: splitCRLF rest := by
        simpa using ih'
      rw [List.cons_append, List.nil_append, splitCRLF]
      rw [if_neg (by rintro ⟨h1, h2⟩; exact hc h1)]
      rw [ih0]
    | cons c2 cs2 =>
      have hstep : (c :: c2 :: cs2) ++ '\r' :: '\n' :: rest =
          c :: c2 :: (cs2 ++ '\r' :: '\n' :: rest) := by simp
      rw [hstep, splitCRLF]
      rw [if_neg (by rintro ⟨h1, _⟩; exact hc h1)]
      have ih2 : splitCRLF (c2 :: (cs2 ++ '\r' :: '\n' :: rest)) =
          (c2 :: cs2) :: splitCRLF rest := by
        simpa using ih'
      rw [ih2]

theorem afterFirstColon_append (l rest : List Char) (h : ∀ c ∈ l, c ≠ ':') :
    afterFirstColon (l ++ ':' :: rest) = rest := by
  induction l with
  | nil => simp [afterFirstColon]
  | cons c cs ih =>
    rw [List.cons_append, afterFirstColon, if_neg (h c (by simp))]
    exact ih fun x hx => h x (by simp [hx])

theorem startsWithL_append {α : Type} [DecidableEq α] :
    ∀ (p rest : List α), startsWithL p (p ++ rest) = true := by
  intro p rest
  induction p with
  | nil => rfl
  | cons c cs ih => simp [startsWithL, ih]

theorem isPySpace_of_digit (c : Char) (h1 : 48 ≤ c.toNat) (h2 : c.toNat ≤ 57) :
    isPySpace c = false := by
  cases hsp : isPySpace c
  · rfl
  · exfalso
    unfold isPySpace at hsp
    simp only [Bool.or_eq_true, decide_eq_true_eq] at hsp
    rcases hsp with ((((h | h) | h) | h) | h) | h <;>
      (subst h; revert h1 h2; decide)

/-- `(' ' + digits).strip() == digits`. -/
theorem pyStrip_space_digits (ds : List Char) (hne : ds ≠ [])
    (h : ∀ c ∈ ds, 48 ≤ c.toNat ∧ c.toNat ≤ 57) :
    pyStrip (' ' :: ds) = ds := by
  unfold pyStrip
  rw [List.dropWhile_cons, if_pos (by decide)]
  cases hds : ds with
  | nil => exact absurd hds hne
  | cons d ds1 =>
    have hd := h d (by simp [hds])
    rw [List.dropWhile_cons, if_neg (by simp [isPySpace_of_digit d hd.1 hd.2])]
    rw [← hds]
    cases hrev : ds.reverse with
    | nil => exact absurd (by simpa using congrArg List.reverse hrev) hne
    | cons r rs =>
      have hr : r ∈ ds := by
        have : r ∈ ds.reverse := by simp [hrev]
        simpa using this
      have hrd := h r hr
      rw [List.dropWhile_cons,
        if_neg (by simp [isPySpace_of_digit r hrd.1 hrd.2]), ← hrev,
        List.reverse_reverse]

theorem isDigit_of_toNat (c : Char) (h1 : 48 ≤ c.toNat) (h2 : c.toNat ≤ 57) :
    c.isDigit = true := by
  have ha : '0' ≤ c := h1
  have hb : c ≤ '9' := h2
  simp [Char.isDigit]
  exact ⟨ha, hb⟩

theorem parseDigitsCore_digits :
    ∀ (ds : List Char) (acc : Nat),
      (∀ c ∈ ds, 48 ≤ c.toNat ∧ c.toNat ≤ 57) →
      parseDigitsCore acc ds =
        some (ds.foldl (fun a c => a * 10 + (c.toNat - 48)) acc) := by
  intro ds
  induction ds with
  | nil => intro acc _; simp [parseDigitsCore]
  | cons c cs ih =>
    intro acc h
    have hc := h c (by simp)
    rw [parseDigitsCore.eq_def]
    simp only [if_pos (isDigit_of_toNat c hc.1 hc.2)]
    rw [ih _ fun x hx => h x (by simp [hx])]
    simp

/-- Value computed by folding the digits of `n` starting from `acc`. -/
theorem decimalCharsAux_foldl (fuel : Nat) :
    ∀ n acc, n < fuel →
      (decimalCharsAux fuel n).foldl (fun a c => a * 10 + (c.toNat - 48)) acc =
        acc * 10 ^ (decimalCharsAux fuel n).length + n := by
  induction fuel with
  | zero => intro n _ h; omega
  | succ fuel ih =>
    intro n acc h
    rw [decimalCharsAux]
    by_cases hn : n < 10
    · rw [if_pos hn]
      simp [toNat_ofNat_small (48 + n) (by omega)]
    · rw [if_neg hn]
      rw [List.foldl_append]
      rw [ih (n / 10) acc (by omega)]
      simp only [List.foldl_cons, List.foldl_nil, List.length_append,
        List.length_cons, List.length_nil]
      rw [toNat_ofNat_small (48 + n % 10) (by omega)]
      have hd : 48 + n % 10 - 48 = n % 10 := by omega
      rw [hd, pow_succ, ← mul_assoc]
      have hsplit : n / 10 * 10 + n % 10 = n := by omega
      calc (acc * 10 ^ (decimalCharsAux fuel (n / 10)).length + n / 10) * 10 + n % 10
          = acc * 10 ^ (decimalCharsAux fuel (n / 10)).length * 10 +
            (n / 10 * 10 + n % 10) := by ring
        _ = acc * 10 ^ (decimalCharsAux fuel (n / 10)).length * 10 + n := by
            rw [hsplit]

/-- `int(str(n)) == n`. -/
theorem parsePyNat_decimalChars (n : Nat) :
    parsePyNat (decimalChars n) = some n := by
  obtain ⟨c, cs, hcc⟩ := List.exists_cons_of_ne_nil (decimalChars_ne_nil n)
  have hdig := decimalChars_digits n
  have hc := hdig c (by simp [hcc])
  rw [hcc, parsePyNat, if_pos (isDigit_of_toNat c hc.1 hc.2)]
  rw [parseDigitsCore_digits cs (c.toNat - 48)
    fun x hx => hdig x (by simp [hcc, hx])]
  have hfold := decimalCharsAux_foldl (n + 1) n 0 (by omega)
  rw [show decimalCharsAux (n + 1) n = decimalChars n from rfl, hcc] at hfold
  simp only [List.foldl_cons] at hfold
  rw [show (0 : Nat) * 10 + (c.toNat - 48) = c.toNat - 48 from by omega] at hfold
  rw [hfold]
  simp

theorem parsePyInt_decimalChars (n : Nat) :
    parsePyInt (decimalChars n) = some (Int.ofNat n) := by
  obtain ⟨c, cs, hcc⟩ := List.exists_cons_of_ne_nil (decimalChars_ne_nil n)
  have hc := decimalChars_digits n c (by simp [hcc])
  rw [hcc, parsePyInt]
  rw [if_neg (by intro he; subst he; revert hc; decide)]
  rw [if_neg (by intro he; subst he; revert hc; decide)]
  rw [← hcc, parsePyNat_decimalChars n]
  rfl

/-- The frame decomposed for the header loop: CR/LF-free header text,
terminator, then body. -/
theorem writeMessageBytes_decomp (s : List Char) (extra : List Nat) :
    writeMessageBytes s ++ extra =
      (utf8Encode "Content-Length: ".data ++
        utf8Encode (decimalChars (utf8Encode s).length)) ++
      ([13, 10, 13, 10] ++ (utf8Encode s ++ extra)) := by
  rw [writeMessageBytes, headerChars, utf8Encode_append, utf8Encode_append,
    show utf8Encode ['\r', '\n', '\r', '\n'] = [13, 10, 13, 10] from by decide]
  simp [List.append_assoc]

theorem headerBytes_no_crlf (n : Nat) :
    ∀ b ∈ utf8Encode "Content-Length: ".data ++ utf8Encode (decimalChars n),
      b ≠ 13 ∧ b ≠ 10 := by
  intro b hb
  rcases List.mem_append.mp hb with h | h
  · exact utf8Encode_no_crlf _ (by decide) b h
  · refine utf8Encode_no_crlf _ (fun c hc => ?_) b h
    have := decimalChars_digits n c hc
    omega

theorem headerChars_split (n : Nat) :
    splitCRLF (headerChars n) =
      [("Content-Length: ".data ++ decimalChars n), [], []] := by
  have hnoCR : ∀ c ∈ "Content-Length: ".data ++ decimalChars n, c ≠ '\r' := by
    intro c hc
    rcases List.mem_append.mp hc with h | h
    · exact (show ∀ x ∈ "Content-Length: ".data, x ≠ '\r' from by decide) c h
    · intro he
      have := decimalChars_digits n c h
      rw [he] at this
      revert this
      decide
  have e1 : headerChars n =
      ("Content-Length: ".data ++ decimalChars n) ++
        '\r' :: '\n' :: ('\r' :: '\n' :: []) := by
    rw [headerChars]
  rw [e1, splitCRLF_append _ _ hnoCR,
    show splitCRLF ('\r' :: '\n' :: []) = [[], []] from by decide]

theorem parseContentLength_header (n : Nat) :
    parseContentLength (splitCRLF (headerChars n)) = CLRes.val (Int.ofNat n) := by
  rw [headerChars_split n, parseContentLength]
  have hline : "Content-Length: ".data ++ decimalChars n =
      "Content-Length:".data ++ (' ' :: decimalChars n) := by
    rw [show "Content-Length: ".data = "Content-Length:".data ++ [' '] from by
      decide]
    simp
  rw [if_pos (by rw [hline]; exact startsWithL_append _ _)]
  rw [parseCLValue]
  have hline2 : "Content-Length: ".data ++ decimalChars n =
      "Content-Length".data ++ (':' :: (' ' :: decimalChars n)) := by
    rw [show "Content-Length: ".data = "Content-Length".data ++ [':', ' '] from by
      decide]
    simp
  rw [hline2, afterFirstColon_append _ _
    (show ∀ x ∈ "Content-Length".data, x ≠ ':' from by decide)]
  rw [pyStrip_space_digits (decimalChars n) (decimalChars_ne_nil n)
    (decimalChars_digits n)]
  rw [parsePyInt_decimalChars]

theorem readBytesRaw_exact (body extra : List Nat) (h : body ≠ []) :
    readBytesRaw body.length (body ++ extra) = (some body, extra) := by
  rw [readBytesRaw]
  rw [if_neg (by simp [List.length_eq_zero, h])]
  rw [if_neg (by simp [h])]
  rw [List.take_left, List.drop_left]

/-- The body of `read_message` on a complete frame with a nonempty body:
exactly the `Content-Length` body bytes are consumed and decoded. -/
theorem readMessageBody_frame (s : List Char) (extra : List Nat) (hs : s ≠ []) :
    readMessageBody (writeMessageBytes s ++ extra) =
      .ok (some s, false, extra) := by
  have hne : utf8Encode s ≠ [] := utf8Encode_ne_nil s hs
  have h1 : readHeaderLoop [] (writeMessageBytes s ++ extra) =
      some ((utf8Encode "Content-Length: ".data ++
        utf8Encode (decimalChars (utf8Encode s).length)) ++ [13, 10, 13, 10],
        utf8Encode s ++ extra) := by
    rw [writeMessageBytes_decomp s extra]
    have := readHeaderLoop_clean
      (utf8Encode "Content-Length: ".data ++
        utf8Encode (decimalChars (utf8Encode s).length))
      [] (utf8Encode s ++ extra) (by simp)
      (headerBytes_no_crlf (utf8Encode s).length)
    simpa [List.append_assoc] using this
  have h2 : utf8Decode ((utf8Encode "Content-Length: ".data ++
      utf8Encode (decimalChars (utf8Encode s).length)) ++ [13, 10, 13, 10]) =
      some (headerChars (utf8Encode s).length) := by
    have he : (utf8Encode "Content-Length: ".data ++
        utf8Encode (decimalChars (utf8Encode s).length)) ++ [13, 10, 13, 10] =
        utf8Encode (headerChars (utf8Encode s).length) := by
      rw [headerChars, utf8Encode_append, utf8Encode_append,
        show utf8Encode ['\r', '\n', '\r', '\n'] = [13, 10, 13, 10] from by
          decide]
    rw [he, utf8Decode_utf8Encode]
  simp only [readMessageBody, h1, h2, parseContentLength_header]
  rw [if_neg (by simp only [Int.ofNat_eq_natCast]; omega)]
  rw [show (Int.ofNat (utf8Encode s).length).toNat =
    (utf8Encode s).length from rfl]
  rw [readBytesRaw_exact (utf8Encode s) extra hne]
  simp [hne, utf8Decode_utf8Encode]

theorem utf8Encode_ascii (l : List Char) (h : ∀ c ∈ l, c.toNat < 128) :
    utf8Encode l = l.map Char.toNat := by
  induction l with
  | nil => rfl
  | cons c cs ih =>
    simp only [utf8Encode, List.map_cons]
    rw [show utf8EncodeChar c.toNat = [c.toNat] from by
      unfold utf8EncodeChar; rw [if_pos (h c (by simp))]]
    rw [ih fun x hx => h x (by simp [hx])]
    rfl

/-! ### Claim theorems for the framing layer -/

/-- C1 (amended): for every **nonempty** body string `s`, decoding the
frame produced by encoding `s` yields exactly `s`; the decoder consumes
exactly the `Content-Length` body bytes (any following bytes `extra` are
left unread, even when the body contains `\r\n\r\n`).  The empty body is
excluded: `read_message` treats the empty byte string returned for a
zero-length body as a failed read (`if not message_bytes`) and returns
`None`. -/
theorem framer_roundtrip (s : List Char) (extra : List Nat) (hs : s ≠ []) :
    readMessage (writeMessageBytes s ++ extra) = ⟨some s, false, extra⟩ := by
  rw [readMessage, readMessageBody_frame s extra hs]

/-- Witness for `framer_roundtrip`: a JSON body containing `\r\n\r\n`
inside a string value round-trips, and the trailing byte `99` is not
consumed. -/
theorem framer_roundtrip_witness :
    readMessage (writeMessageBytes "\x7b\"a\": \"x\r\n\r\ny\"\x7d".data ++ [99]) =
      ⟨some "\x7b\"a\": \"x\r\n\r\ny\"\x7d".data, false, [99]⟩ :=
  framer_roundtrip "\x7b\"a\": \"x\r\n\r\ny\"\x7d".data [99] (by decide)

/-- Counterexample to C1 as stated: for the empty body string,
`read_message(write_message(\"\"))` is `None` (with an error logged), not
the empty string, because `not b\"\"` is true in Python. -/
theorem framer_roundtrip_empty_counterexample :
    readMessage (writeMessageBytes []) = ⟨none, true, []⟩ ∧
      (readMessage (writeMessageBytes [])).value ≠ some [] := by
  constructor
  · decide
  · decide

/-- C2 (amended): when the header block completes but holds no
`Content-Length` key, `read_message` logs an error and returns `None`;
when a `Content-Length` `n` was parsed but fewer than `n` body bytes
arrive before the stream ends, `read_message` logs an error and returns
`None`.  Both outcomes end the connection, but the returned value is the
same `None` produced on orderly peer disconnect (`readMessage [] =`
no-value, no error logged), so the caller cannot distinguish them from a
clean close by the return value. -/
theorem framing_error_signalling (stream headers rest : List Nat)
    (hs : List Char) (hhl : readHeaderLoop [] stream = some (headers, rest))
    (hdec : utf8Decode headers = some hs) :
    (parseContentLength (splitCRLF hs) = CLRes.missing →
        readMessage stream = ⟨none, true, rest⟩) ∧
      (∀ n : Nat, parseContentLength (splitCRLF hs) = CLRes.val (Int.ofNat n) →
        rest.length < n → readMessage stream = ⟨none, true, []⟩) ∧
      readMessage [] = ⟨none, false, []⟩ := by
  refine ⟨?_, ?_, by decide⟩
  · intro hmiss
    simp only [readMessage, readMessageBody, hhl, hdec, hmiss]
  · intro n hv hlen
    simp only [readMessage, readMessageBody, hhl, hdec, hv]
    rw [if_neg (by simp only [Int.ofNat_eq_natCast]; omega)]
    rw [show (Int.ofNat n).toNat = n from rfl]
    cases rest with
    | nil =>
      rw [readBytesRaw, if_neg (by simp at hlen; omega), if_pos (by rfl)]
    | cons b bs =>
      rw [readBytesRaw, if_neg (by simp at hlen; omega),
        if_neg (by simp)]
      rw [List.take_of_length_le (by omega), List.drop_eq_nil_of_le (by omega)]
      have hne2 : ¬ (bs.length + 1 = n) := by
        simp at hlen
        omega
      simp [hne2]

/-- Witness for `framing_error_signalling`: the stream
`"Foo: 1\r\n\r\n"` has a complete header block without `Content-Length`;
the result equals `None` with an error logged, while the empty stream
(clean close) is `None` without error. -/
theorem framing_error_signalling_witness :
    readMessage (utf8Encode "Foo: 1\r\n\r\n".data) = ⟨none, true, []⟩ ∧
      readMessage [] = ⟨none, false, []⟩ := by
  have h := framing_error_signalling (utf8Encode "Foo: 1\r\n\r\n".data)
    (utf8Encode "Foo: 1\r\n\r\n".data) [] "Foo: 1\r\n\r\n".data
    (by decide) (by decide)
  exact ⟨h.1 (by decide), h.2.2⟩

/-- Counterexample to C2 as stated: the caller-visible result of
`read_message` on a framing-error stream (complete header block, no
`Content-Length`) is the very same `None` returned for the clean
end-of-stream, so no distinguished `ProtocolFraming` error reaches the
caller. -/
theorem framing_error_counterexample :
    (readMessage (utf8Encode "Foo: 1\r\n\r\n".data)).value =
      (readMessage []).value := by
  decide

/-- C3: `write_message` produces exactly
`"Content-Length: " ++ decimal(N) ++ "\r\n\r\n" ++ utf8(body)` where `N`
is the UTF-8 **byte** length of the body (`len(message.encode('utf-8'))`),
not its character count. -/
theorem encode_wire_format (s : List Char) :
    writeMessageBytes s =
      "Content-Length: ".data.map Char.toNat ++
      (decimalChars (utf8Encode s).length).map Char.toNat ++
      ([13, 10, 13, 10] ++ utf8Encode s) := by
  rw [writeMessageBytes, headerChars, utf8Encode_append, utf8Encode_append]
  rw [utf8Encode_ascii "Content-Length: ".data (by decide)]
  rw [utf8Encode_ascii (decimalChars (utf8Encode s).length)
    fun c hc => by have := decimalChars_digits (utf8Encode s).length c hc; omega]
  rw [show utf8Encode ['\r', '\n', '\r', '\n'] = [13, 10, 13, 10] from by decide]
  simp [List.append_assoc]

/-- C10: `read_message` and `write_message` never raise to the caller:
every exception the body of `read_message` raises (bad UTF-8, a
`Content-Length` value `int()` rejects, a negative count passed to
`ReadFile`) is caught and surfaces as the `None` return, and an OS write
failure surfaces as `write_message` returning `False`. -/
theorem read_write_total (stream : List Nat) :
    (∀ e rest, readMessageBody stream = .error (e, rest) →
      readMessage stream = ⟨none, true, rest⟩) ∧
    (∀ v logged rest, readMessageBody stream = .ok (v, logged, rest) →
      readMessage stream = ⟨v, logged, rest⟩) ∧
    (∀ message, (writeMessageFull false message).1 = false) ∧
    (∀ message, (writeMessageFull true message).1 = true) := by
  refine ⟨?_, ?_, fun _ => rfl, fun _ => rfl⟩
  · intro e rest h
    rw [readMessage, h]
  · intro v logged rest h
    rw [readMessage, h]

/-- Witness for `read_write_total`: a header block containing the invalid
UTF-8 byte `0xFF` raises `UnicodeDecodeError` in the body, and the caller
sees `None`; a failed OS write surfaces as `False`. -/
theorem read_write_total_witness :
    readMessage [0xFF, 13, 10, 13, 10] = ⟨none, true, []⟩ ∧
      (writeMessageFull false "x".data).1 = false := by
  have h := read_write_total [0xFF, 13, 10, 13, 10]
  exact ⟨h.1 PyExn.unicodeDecode [] rfl, h.2.2.1 "x".data⟩

/-! ### RPC service — `rpc_service.py`

The service loop exchanges JSON-RPC texts over the framed pipe.  The
framing layer is verified above; here frames are modelled as parsed JSON
values so that the dispatch/response logic of
`CelbridgeRpcService._handle_client` can be stated directly.  JSON values
carry the subset of shapes JSON-RPC 2.0 uses. -/

/-- A JSON value (numbers restricted to integers, which covers every
value this protocol layer produces or inspects). -/
inductive JVal where
  | null
  | bool (b : Bool)
  | num (n : Int)
  | str (s : List Char)
  | arr (elems : List JVal)
  | obj (fields : List (List Char × JVal))

/-- First binding of a key in a JSON object / lookup table. -/
def assocLookup {β : Type} (k : List Char) : List (List Char × β) → Option β
  | [] => none
  | (k1, v) :: rest => if k = k1 then some v else assocLookup k rest

def getField (v : JVal) (k : List Char) : Option JVal :=
  match v with
  | .obj fields => assocLookup k fields
  | _ => none

/-- The `id` member of a request or response; a missing `id` counts as
`null` (a notification). -/
def getId (v : JVal) : JVal :=
  (getField v "id".data).getD .null

def JVal.isNull : JVal → Bool
  | .null => true
  | _ => false

/-- `{"jsonrpc": "2.0", "error": {"code": c, "message": m}, "id": rid}`. -/
def errorResponse (code : Int) (msg : List Char) (rid : JVal) : JVal :=
  .obj [("jsonrpc".data, .str "2.0".data),
        ("error".data, .obj [("code".data, .num code),
                             ("message".data, .str msg)]),
        ("id".data, rid)]

/-- `{"jsonrpc": "2.0", "result": v, "id": rid}`. -/
def successResponse (result rid : JVal) : JVal :=
  .obj [("jsonrpc".data, .str "2.0".data),
        ("result".data, result),
        ("id".data, rid)]

/-- The response `_handle_client` synthesizes in its `except` block:
`json.dumps({"jsonrpc": "2.0", "error": {"code": -32603, "message":
f"Internal error: {e}"}, "id": None})` — note the hard-coded `id: null`. -/
def internalErrorResponse (e : List Char) : JVal :=
  errorResponse (-32603) ("Internal error: ".data ++ e) .null

/-- The request loop of `CelbridgeRpcService._handle_client` on one
connection, at message granularity: the input list is the sequence of
requests the peer sends before disconnecting (`read_message` → `None`
ends the loop), the output is the sequence of frames written back.
`dispatchF` is the `jsonrpcserver.dispatch` callable: `.ok (some r)` a
response to write, `.ok none` a notification (no response), `.error e`
an exception escaping `dispatch`, answered by `internalErrorResponse`
and the loop continues.  Writes are modelled as succeeding (the claims
concern a live connection; a failed write breaks the loop in the
source). -/
def handleClient (dispatchF : JVal → Except (List Char) (Option JVal)) :
    List JVal → List JVal
  | [] => []
  | req :: rest =>
    match dispatchF req with
    | .ok (some resp) => resp :: handleClient dispatchF rest
    | .ok none => handleClient dispatchF rest
    | .error e => internalErrorResponse e :: handleClient dispatchF rest

def paramsOf (req : JVal) : JVal :=
  (getField req "params".data).getD (.obj [])

/-- Modelled from the spec: the Dispatch Table collaborator
(`jsonrpcserver.dispatch` over `@method`-registered handlers) is a
third-party library, not under `src/`.  Spec §4.3: dispatch looks up
`method`; an unknown method yields `error.code = -32601`; handlers return
a success payload or a structured `(code, message)` error (handler
exceptions are already converted to `-32603` errors by the library, so
handlers are modelled as returning `Except`); a notification (`id` null)
yields no response. -/
def dispatchSpec
    (table : List (List Char × (JVal → Except (Int × List Char) JVal)))
    (req : JVal) : Option JVal :=
  let rid := getId req
  if rid.isNull then none
  else some
    (match getField req "method".data with
     | some (.str m) =>
       match assocLookup m table with
       | none => errorResponse (-32601) "method not found".data rid
       | some h =>
         match h (paramsOf req) with
         | .ok v => successResponse v rid
         | .error (c, msg) => errorResponse c msg rid
     | _ => errorResponse (-32600) "invalid request".data rid)

/-- Shape check for the spec §6 error response:
`{"jsonrpc":"2.0","error":{"code":<int>,"message":<string>},"id":<id>}`
with no `result` member. -/
def isWellFormedErrorResponse (v : JVal) : Bool :=
  match v with
  | .obj fields =>
    (match assocLookup "jsonrpc".data fields with
     | some (.str s) => decide (s = "2.0".data)
     | _ => false) &&
    (match assocLookup "error".data fields with
     | some (.obj efields) =>
       (match assocLookup "code".data efields with
        | some (.num _) => true
        | _ => false) &&
       (match assocLookup "message".data efields with
        | some (.str _) => true
        | _ => false)
     | _ => false) &&
    (match assocLookup "result".data fields with
     | none => true
     | some _ => false) &&
    (match assocLookup "id".data fields with
     | some _ => true
     | none => false)
  | _ => false

def errorCodeOf (v : JVal) : Option Int :=
  match getField v "error".data with
  | some (.obj efields) =>
    match assocLookup "code".data efields with
    | some (.num c) => some c
    | _ => none
  | _ => none

/-! ### Outbound calls — `call_csharp_method` -/

/-- The distinct failure exits of `call_csharp_method`; the source raises
a single `RpcError` class whose message distinguishes the cases. -/
inductive RpcFailure where
  | noActivePeer (method : List Char)
  | sendFailed (method : List Char)
  | recvFailed (method : List Char)
  | remoteError (code : Int) (msg : List Char)
  | unexpectedResponse

/-- Blocking transport operations `call_csharp_method` can perform. -/
inductive IOEv where
  | wrote (frame : JVal)
  | readBlocked

/-- The connection seen through the shared slot: whether
`write_message` succeeds and what the following blocking
`read_message` yields. -/
structure ConnModel where
  writeOk : Bool
  readResult : Option JVal

inductive ParsedResp where
  | okResp (result : JVal)
  | errResp (code : Int) (msg : List Char)
  | otherResp

/-- Modelled from the spec: `jsonrpcclient.parse_json` (third-party, not
under `src/`) classifies a response as `Ok` (has `result`) or `Error`
(has `error.code`/`error.message`); anything else is the "unexpected
response type" case. -/
def parseResponse (v : JVal) : ParsedResp :=
  match getField v "result".data with
  | some r => .okResp r
  | none =>
    match getField v "error".data with
    | some (.obj ef) =>
      match assocLookup "code".data ef, assocLookup "message".data ef with
      | some (.num c), some (.str m) => .errResp c m
      | _, _ => .otherResp
    | _ => .otherResp

/-- Modelled from the spec: `jsonrpcclient.request_json` (third-party)
builds `{"jsonrpc":"2.0","method":m,"params":p,"id":<generated>}`; the id
generation scheme is external, so the id is a parameter here. -/
def requestObj (method : List Char) (params reqId : JVal) : JVal :=
  .obj [("jsonrpc".data, .str "2.0".data),
        ("method".data, .str method),
        ("params".data, params),
        ("id".data, reqId)]

/-- `call_csharp_method`: reads the shared slot (`get_pipe_handler`,
a short lock-protected pointer read); with no connection it raises
`RpcError` at once, before any transport operation; otherwise it writes
the request frame and blocks reading the next frame.  The second
component is the list of blocking transport operations performed. -/
def callCsharp (slot : Option ConnModel) (method : List Char)
    (params reqId : JVal) : Except RpcFailure JVal × List IOEv :=
  match slot with
  | none => (.error (.noActivePeer method), [])
  | some conn =>
    let req := requestObj method params reqId
    if conn.writeOk then
      match conn.readResult with
      | none => (.error (.recvFailed method), [.wrote req, .readBlocked])
      | some resp =>
        match parseResponse resp with
        | .okResp r => (.ok r, [.wrote req, .readBlocked])
        | .errResp c m =>
          (.error (.remoteError c m), [.wrote req, .readBlocked])
        | .otherResp =>
          (.error .unexpectedResponse, [.wrote req, .readBlocked])
    else (.error (.sendFailed method), [.wrote req])

/-! ### Service lifecycle — `_run`, `stop`, `close_pipe`,
`initialize_rpc_service` -/

/-- Observable events of the `_run` loop serving one connection:
`accept_client` returns, `_handle_client` publishes the handler into the
shared `_pipe_handler` slot, serves requests, clears the slot in its
`finally`, then `_run` calls `close_pipe`. -/
inductive ConnEv where
  | accepted (c : Nat)
  | published (c : Nat)
  | served (c : Nat)
  | cleared (c : Nat)
  | closed (c : Nat)

/-- The `_run` loop over the sequence of `accept_client` outcomes until
the service stops (`none` = accept returned no connection; the loop just
re-enters `accept`).  Message handling inside a connection is the
`served` event; it does not touch the slot. -/
def runTrace : List (Option Nat) → List ConnEv
  | [] => []
  | none :: rest => runTrace rest
  | some c :: rest =>
    .accepted c :: .published c :: .served c :: .cleared c :: .closed c ::
      runTrace rest

/-- Trace check for the sequential-connection invariant: first state the
connection being handled, second the shared slot.  A connection may be
accepted only when none is active; publishing puts it in the slot;
serving requires the slot to hold it; it is cleared, then closed, before
the next accept. -/
def seqCheck : Option Nat → Option Nat → List ConnEv → Bool
  | none, none, [] => true
  | none, none, .accepted c :: tr => seqCheck (some c) none tr
  | some c, none, .published d :: tr =>
    c == d && seqCheck (some c) (some c) tr
  | some c, some s, .served d :: tr =>
    c == d && s == c && seqCheck (some c) (some s) tr
  | some c, some s, .cleared d :: tr =>
    c == d && s == c && seqCheck (some c) none tr
  | some c, none, .closed d :: tr => c == d && seqCheck none none tr
  | _, _, _ => false

/-- State of the service object: `self.running` and whether the
background daemon thread was spawned. -/
structure ServiceSt where
  running : Bool
  hasThread : Bool
  deriving DecidableEq

/-- `CelbridgeRpcService.start`: a no-op (plus a warning) when already
running, else sets `running` and spawns the daemon thread. -/
def startService (s : ServiceSt) : ServiceSt :=
  if s.running then s else { running := true, hasThread := true }

/-- `CelbridgeRpcService.stop`: sets `running := False` and returns; no
statement in its body can raise.  Second component: whether the call
raised. -/
def stopService (s : ServiceSt) : ServiceSt × Bool :=
  ({ s with running := false }, false)

/-- Result of `NamedPipeServer.close_pipe`: handle state afterwards,
whether the call raised to the caller, and whether the
`except` block logged an error (a second close makes `CloseHandle`
raise, which is caught and logged). -/
structure CloseResult where
  handleOpen : Bool
  raised : Bool
  errorLogged : Bool
  deriving DecidableEq

def closePipe (handleOpen : Bool) : CloseResult :=
  if handleOpen then ⟨false, false, false⟩ else ⟨false, false, true⟩

/-- Log line emitted by `initialize_rpc_service` (info vs warning). -/
inductive InitLog where
  | infoNotConfigured
  | warnAlreadyInitialized
  | infoStarted
  deriving DecidableEq

def InitLog.isInfo : InitLog → Bool
  | .infoNotConfigured => true
  | .infoStarted => true
  | .warnAlreadyInitialized => false

structure InitResult where
  started : Bool
  service : Option ServiceSt
  log : InitLog
  deriving DecidableEq

/-- `initialize_rpc_service`: reads `CELBRIDGE_RPC_PIPE` (`env`); a
missing or empty value (`if not pipe_name`) returns `False` after an
info log, without touching the global `_rpc_service` (`cur`); an
existing service logs a warning and returns `False`; otherwise the
service is constructed, started, and published. -/
def initRpcService (env : Option (List Char)) (cur : Option ServiceSt) :
    InitResult :=
  match env with
  | none => ⟨false, cur, .infoNotConfigured⟩
  | some name =>
    if name.isEmpty then ⟨false, cur, .infoNotConfigured⟩
    else
      match cur with
      | some s => ⟨false, some s, .warnAlreadyInitialized⟩
      | none =>
        ⟨true, some (startService { running := false, hasThread := false }),
          .infoStarted⟩

/-! ### Claim theorems for the service layer -/

theorem getId_errorResponse (c : Int) (m : List Char) (rid : JVal) :
    getId (errorResponse c m rid) = rid := rfl

theorem getId_successResponse (v rid : JVal) :
    getId (successResponse v rid) = rid := rfl

theorem isNull_eq_false {v : JVal} (h : v ≠ .null) : v.isNull = false := by
  cases v
  case null => exact absurd rfl h
  all_goals rfl

/-- C4: when `dispatch` raises, `_handle_client` writes the synthesized
response — a well-formed JSON-RPC error response with
`error.code = -32603` — instead of dropping the connection, and the loop
goes on to serve the remaining requests of the same connection. -/
theorem dispatch_failure_containment
    (dispatchF : JVal → Except (List Char) (Option JVal))
    (req : JVal) (rest : List JVal) (e : List Char)
    (h : dispatchF req = .error e) :
    handleClient dispatchF (req :: rest) =
      internalErrorResponse e :: handleClient dispatchF rest ∧
    isWellFormedErrorResponse (internalErrorResponse e) = true ∧
    errorCodeOf (internalErrorResponse e) = some (-32603) := by
  refine ⟨?_, rfl, rfl⟩
  rw [handleClient, h]

/-- Witness for `dispatch_failure_containment` at a concrete raising
dispatch. -/
theorem dispatch_failure_containment_witness :
    handleClient
        (fun _ => (.error "boom".data : Except (List Char) (Option JVal)))
        [JVal.obj [("id".data, .num 7)]] =
      internalErrorResponse "boom".data ::
        handleClient
          (fun _ => (.error "boom".data : Except (List Char) (Option JVal)))
          [] ∧
    isWellFormedErrorResponse (internalErrorResponse "boom".data) = true ∧
    errorCodeOf (internalErrorResponse "boom".data) = some (-32603) :=
  dispatch_failure_containment _ _ [] "boom".data rfl

/-- C5 (amended): on the normal dispatch path every non-notification
request yields exactly one response and that response carries the
request's `id` (and notifications yield none), but the internal-error
response synthesized when dispatch itself raises carries `id = null`
regardless of the request's `id`. -/
theorem response_id_correlation
    (table : List (List Char × (JVal → Except (Int × List Char) JVal)))
    (reqs : List JVal) (e : List Char) (req : JVal) (rest : List JVal) :
    handleClient (fun r => .ok (dispatchSpec table r)) reqs =
      reqs.filterMap (dispatchSpec table) ∧
    (∀ r : JVal, getId r ≠ .null →
      ∃ resp, dispatchSpec table r = some resp ∧ getId resp = getId r) ∧
    handleClient (fun _ => (.error e : Except (List Char) (Option JVal)))
        (req :: rest) =
      internalErrorResponse e ::
        handleClient (fun _ => (.error e : Except (List Char) (Option JVal)))
          rest ∧
    getId (internalErrorResponse e) = .null := by
  refine ⟨?_, ?_, rfl, rfl⟩
  · induction reqs with
    | nil => rfl
    | cons r rs ih =>
      cases h : dispatchSpec table r with
      | none => simp [handleClient, List.filterMap_cons, h, ih]
      | some resp => simp [handleClient, List.filterMap_cons, h, ih]
  · intro r hr
    simp only [dispatchSpec, isNull_eq_false hr, Bool.false_eq_true,
      if_false]
    refine ⟨_, rfl, ?_⟩
    split
    · split
      · exact getId_errorResponse _ _ _
      · split
        · exact getId_successResponse _ _
        · exact getId_errorResponse _ _ _
    · exact getId_errorResponse _ _ _

/-- Witness for `response_id_correlation` at an empty dispatch table and
a request with `id = 2`. -/
theorem response_id_correlation_witness :
    handleClient (fun r => .ok (dispatchSpec [] r))
        [requestObj "y".data (.obj []) (.num 2)] =
      [requestObj "y".data (.obj []) (.num 2)].filterMap (dispatchSpec []) ∧
    (∃ resp,
      dispatchSpec [] (requestObj "y".data (.obj []) (.num 2)) = some resp ∧
      getId resp = getId (requestObj "y".data (.obj []) (.num 2))) ∧
    getId (internalErrorResponse "z".data) = .null := by
  have h := response_id_correlation []
    [requestObj "y".data (.obj []) (.num 2)] "z".data
    (requestObj "y".data (.obj []) (.num 2)) []
  exact ⟨h.1, h.2.1 _ (fun hn => JVal.noConfusion hn), h.2.2.2⟩

/-- Counterexample to C5 as stated: a request carrying `id = 1` whose
dispatch raises is answered by the synthesized internal-error response,
and that response's `id` is `null`, not the request's `1`. -/
theorem response_id_counterexample :
    handleClient
        (fun _ => (.error "boom".data : Except (List Char) (Option JVal)))
        [requestObj "x".data (.obj []) (.num 1)] =
      [internalErrorResponse "boom".data] ∧
    getId (requestObj "x".data (.obj []) (.num 1)) = .num 1 ∧
    getId (internalErrorResponse "boom".data) = .null ∧
    JVal.null ≠ JVal.num 1 := by
  refine ⟨rfl, rfl, rfl, fun h => ?_⟩
  exact JVal.noConfusion h

/-- C6: with the shared connection slot empty, `call_csharp_method`
fails at once with the "no active pipe connection" `RpcError`: the error
is returned to the caller (not swallowed) and no blocking transport
operation — no write, no read — is performed, so the call cannot block
waiting for a future connection. -/
theorem outbound_fail_fast (method : List Char) (params reqId : JVal) :
    callCsharp none method params reqId =
      (.error (.noActivePeer method), []) := rfl

/-- C7: every trace of the `_run` loop satisfies the sequential-
connection invariant: a connection is accepted only while none is
active, the shared slot holds exactly the connection being served, and
the slot is cleared and the connection closed before the loop accepts
the next peer. -/
theorem sequential_connections (conns : List (Option Nat)) :
    seqCheck none none (runTrace conns) = true := by
  induction conns with
  | nil => rfl
  | cons oc rest ih =>
    cases oc with
    | none => simpa [runTrace] using ih
    | some c => simp [runTrace, seqCheck, ih]

/-- C8: with `CELBRIDGE_RPC_PIPE` absent, `initialize_rpc_service`
reports not-started (`False`), leaves the global service slot exactly as
it was (creates no service object and spawns no background thread), and
logs the outcome at info level — feature disabled, not an error. -/
theorem missing_configuration (cur : Option ServiceSt) :
    initRpcService none cur = ⟨false, cur, .infoNotConfigured⟩ ∧
    (initRpcService none cur).log.isInfo = true :=
  ⟨rfl, rfl⟩

/-- C9: a second `stop()` raises nothing (its body cannot raise) and
leaves the service stopped; a second `close_pipe` on the same handle
raises nothing either, because the `CloseHandle` failure is caught
inside `close_pipe`. -/
theorem idempotent_shutdown (s : ServiceSt) (handleOpen : Bool) :
    (stopService (stopService s).1).2 = false ∧
    (stopService (stopService s).1).1.running = false ∧
    (closePipe (closePipe handleOpen).handleOpen).raised = false := by
  refine ⟨rfl, rfl, ?_⟩
  cases handleOpen <;> rfl

end Celbridge
